import Mathlib

/-!
Verification development for the w3g replay decoder (src/src/replay.rs).

The container layer (fixed header, zlib blocks) is out of scope of the claims;
the embedding starts from the inflated logical byte stream, exactly as
Replay::from_bytes parses it after block concatenation.  Bytes are modelled
as natural numbers; a byte read from a real stream is < 256.  Strings are
modelled as their raw byte sequences (the source decodes them with
String::from_utf8_lossy, which does not affect any claim: all comparisons in
the source compare whole strings).  Machine arithmetic that wraps in a
release build (the u16 subtraction of len_following, the u32 minus 2 cast
to i8, the u8 color increment, the u8 truncation of the result dword, u16
accumulation of consumed byte counts, and the u64 timestamp accumulator)
is modelled with explicit mod 2^w, matching release-mode wrapping semantics.
Rust panics (unwrap on a failed read, out-of-range indexing) are modelled by
returning none.
-/

namespace W3G

/-! Specification-side definitions, written from the words of the spec, to be
compared with the source-derived definitions above. -/

/-! Concrete fixtures: hand-built inflated streams exercising the decoder.
hdrBytes is a minimal header phase: host player 1 named A, game name G, a
three-frame encoded settings block decoding to sixteen bytes (map name M,
empty creator), one extra player 2 named B, an empty slot table. -/

/-! Helper lemmas about the cursor primitives. -/

/-! Claim C2.  The spec says the race byte is mapped 0x20 (32) to RANDOM and
0x40 (64) to FIXED.  The source enum declares the decimal discriminants
RANDOM = 20 and FIXED = 40, so the wire bytes 0x20 and 0x40 coerce to
UNKNOWN while the decimal bytes 20 and 40 hit RANDOM and FIXED.  Given the
power-of-two pattern of the other discriminants (1, 2, 4, 8) and the w3g
format, the hex values are clearly the intent and the decimal literals a
slip: a code bug. -/

/-! Invariant machinery for the record loop: key preservation of the players
mapping and monotonicity of the timestamps. -/

/-- Slot color enum of the source; the wire byte is looked up after adding one. -/
inductive SlotColor where
  | RED | BLUE | TEAL | PURPLE | YELLOW | ORANGE | GREEN | PINK | GRAY
  | LIGHTBLUE | DARKGREEN | BROWN | MAROON | NAVY | TURQUOISE | VIOLET
  | WHEAT | PEACH | MINT | LAVENDER | COAL | SNOW | EMERALD | PEANUT
  | OBSERVER | UNKNOWN
  deriving DecidableEq

/-- Slot race enum of the source.  The source literally declares RANDOM = 20
and FIXED = 40 (decimal), not 0x20 and 0x40. -/
inductive SlotRace where
  | HUMAN | ORC | NIGHTELF | UNDEAD | RANDOM | FIXED | UNKNOWN
  deriving DecidableEq

/-- Computer AI strength enum of the source. -/
inductive ComputerAIStrength where
  | EASY | NORMAL | INSANE | UNKNOWN
  deriving DecidableEq

/-- Slot status enum of the source. -/
inductive SlotStatus where
  | EMPTY | CLOSED | OCCUPIED | UNKNOWN
  deriving DecidableEq

/-- Leave reason enum of the source. -/
inductive LeaveReason where
  | CONNECTION_CLOSED_BY_REMOTE_GAME | CONNECTION_CLOSED_BY_LOCAL_GAME | UNKNOWN
  deriving DecidableEq

/-- Action type enum of the source. -/
inductive ActionType where
  | PAUSE | RESUME | SAVE_GAME | SAVE_GAME_DONE | MINIMAP_SIGNAL | UNKNOWN
  deriving DecidableEq

/-- num_derive FromPrimitive for SlotColor: discriminants 1..25, 127. -/
def SlotColor.from_u8 (b : Nat) : Option SlotColor :=
  if b = 1 then some .RED else if b = 2 then some .BLUE
  else if b = 3 then some .TEAL else if b = 4 then some .PURPLE
  else if b = 5 then some .YELLOW else if b = 6 then some .ORANGE
  else if b = 7 then some .GREEN else if b = 8 then some .PINK
  else if b = 9 then some .GRAY else if b = 10 then some .LIGHTBLUE
  else if b = 11 then some .DARKGREEN else if b = 12 then some .BROWN
  else if b = 13 then some .MAROON else if b = 14 then some .NAVY
  else if b = 15 then some .TURQUOISE else if b = 16 then some .VIOLET
  else if b = 17 then some .WHEAT else if b = 18 then some .PEACH
  else if b = 19 then some .MINT else if b = 20 then some .LAVENDER
  else if b = 21 then some .COAL else if b = 22 then some .SNOW
  else if b = 23 then some .EMERALD else if b = 24 then some .PEANUT
  else if b = 25 then some .OBSERVER else if b = 127 then some .UNKNOWN
  else none

/-- num_derive FromPrimitive for SlotRace.  The source declares the decimal
discriminants HUMAN = 1, ORC = 2, NIGHTELF = 4, UNDEAD = 8, RANDOM = 20,
FIXED = 40, UNKNOWN = 127. -/
def SlotRace.from_u8 (b : Nat) : Option SlotRace :=
  if b = 1 then some .HUMAN else if b = 2 then some .ORC
  else if b = 4 then some .NIGHTELF else if b = 8 then some .UNDEAD
  else if b = 20 then some .RANDOM else if b = 40 then some .FIXED
  else if b = 127 then some .UNKNOWN else none

/-- num_derive FromPrimitive for ComputerAIStrength: 0, 1, 2, 127. -/
def ComputerAIStrength.from_u8 (b : Nat) : Option ComputerAIStrength :=
  if b = 0 then some .EASY else if b = 1 then some .NORMAL
  else if b = 2 then some .INSANE else if b = 127 then some .UNKNOWN else none

/-- num_derive FromPrimitive for SlotStatus: 0, 1, 2, 127. -/
def SlotStatus.from_u8 (b : Nat) : Option SlotStatus :=
  if b = 0 then some .EMPTY else if b = 1 then some .CLOSED
  else if b = 2 then some .OCCUPIED else if b = 127 then some .UNKNOWN else none

/-- num_derive FromPrimitive for LeaveReason: 0x01, 0x0C, and the implicit
discriminant 0x0D for UNKNOWN. -/
def LeaveReason.from_u32 (v : Nat) : Option LeaveReason :=
  if v = 0x01 then some .CONNECTION_CLOSED_BY_REMOTE_GAME
  else if v = 0x0C then some .CONNECTION_CLOSED_BY_LOCAL_GAME
  else if v = 0x0D then some .UNKNOWN else none

/-- num_derive FromPrimitive for ActionType: 0x01, 0x02, 0x06, 0x07, 0x68,
and the implicit discriminant 0x69 for UNKNOWN. -/
def ActionType.from_u8 (b : Nat) : Option ActionType :=
  if b = 0x01 then some .PAUSE else if b = 0x02 then some .RESUME
  else if b = 0x06 then some .SAVE_GAME else if b = 0x07 then some .SAVE_GAME_DONE
  else if b = 0x68 then some .MINIMAP_SIGNAL else if b = 0x69 then some .UNKNOWN
  else none

/-- Minimap ping coordinates. -/
structure MinimapLocation where
  x : Nat
  y : Nat
  deriving DecidableEq

/-- Replay metadata block of the report. -/
structure ReplayMeta where
  saving_player_id : Nat
  is_saving_player_host : Bool
  game_name : List Nat
  map_name : List Nat
  game_creator_battle_tag : List Nat
  deriving DecidableEq

/-- Decoded game settings bits. -/
structure GameSettings where
  game_speed : Nat
  vis_hide_terrain : Bool
  vis_map_explored : Bool
  vis_always_visible : Bool
  vis_default : Bool
  obs_mode : Nat
  teams_together : Bool
  fixed_teams : Nat
  shared_unit_control : Bool
  random_hero : Bool
  random_races : Bool
  obs_referees : Bool
  deriving DecidableEq

/-- One 9-byte slot record of the GameStartRecord table. -/
structure Slot where
  player_id : Nat
  map_download_percent : Nat
  status : SlotStatus
  is_computer : Bool
  team_index : Nat
  color : SlotColor
  race : SlotRace
  ai_strength : ComputerAIStrength
  handicap_percent : Nat
  deriving DecidableEq

/-- Per-player entry of the players mapping. -/
structure ReplayPlayer where
  battle_tag : List Nat
  leave_reason : LeaveReason
  result_byte : Nat
  left_at : Nat
  deriving DecidableEq

/-- One chat entry.  recipient_slot_number is a signed 8-bit value. -/
structure ChatMessage where
  sender_player_id : Nat
  recipient_slot_number : Option Int
  flag : Option Nat
  message : List Nat
  timestamp : Nat
  deriving DecidableEq

/-- Optional payload attached to an Action. -/
structure ActionData where
  location : Option MinimapLocation
  savegame_name : Option (List Nat)
  deriving DecidableEq

/-- One decoded action. -/
structure Action where
  player_id : Nat
  timestamp : Nat
  action_type : ActionType
  data : Option ActionData
  deriving DecidableEq

/-- The root report.  The players HashMap is modelled as an association list
with unique keys; no claim depends on hash iteration order. -/
structure Replay where
  version : Nat
  metadata : ReplayMeta
  game_settings : GameSettings
  slots : List Slot
  players : List (Nat × ReplayPlayer)
  chat : List ChatMessage
  actions : List Action
  deriving DecidableEq

/-- parse_dword of the source: little-endian u32 from four bytes. -/
def parse_dword (bytes : List Nat) : Nat :=
  bytes.getD 0 0 + 256 * bytes.getD 1 0 + 256 ^ 2 * bytes.getD 2 0 + 256 ^ 3 * bytes.getD 3 0

/-- parse_word of the source: little-endian u16 from two bytes. -/
def parse_word (bytes : List Nat) : Nat :=
  bytes.getD 0 0 + 256 * bytes.getD 1 0

/-- cursor_read_byte: one byte at the position, advancing it; a failed read
is a panic in the source and none here. -/
def readByte (d : List Nat) (p : Nat) : Option (Nat × Nat) :=
  match d.get? p with
  | some b => some (b, p + 1)
  | none => none

/-- cursor_read_word: two bytes, little endian. -/
def readWord (d : List Nat) (p : Nat) : Option (Nat × Nat) :=
  match d.get? p, d.get? (p + 1) with
  | some a, some b => some (parse_word [a, b], p + 2)
  | _, _ => none

/-- cursor_read_dword: four bytes, little endian. -/
def readDword (d : List Nat) (p : Nat) : Option (Nat × Nat) :=
  match d.get? p, d.get? (p + 1), d.get? (p + 2), d.get? (p + 3) with
  | some a, some b, some c, some e => some (parse_dword [a, b, c, e], p + 4)
  | _, _, _, _ => none

/-- read_exact into a buffer of length n: fails unless n bytes are available. -/
def readExact (d : List Nat) (p n : Nat) : Option (List Nat × Nat) :=
  if p + n ≤ d.length then some ((d.drop p).take n, p + n) else none

/-- The bytes up to and including the first 0, or the whole list when no 0
occurs (the BufRead read_until semantics used by the source). -/
def takeUntilZero : List Nat → List Nat
  | [] => []
  | b :: t => if b = 0 then [0] else b :: takeUntilZero t

/-- cursor_read_nullterminated_string: read_until 0x00 inclusive, then drop
the final byte.  On an empty tail the source slices with an underflowing
upper bound and panics, hence none. -/
def readCString (d : List Nat) (p : Nat) : Option (List Nat × Nat) :=
  let buf := takeUntilZero (d.drop p)
  if buf.isEmpty then none
  else some (buf.dropLast, p + buf.length)

/-- Wrapping u16 subtraction (release-mode Rust semantics). -/
def wsub16 (a b : Nat) : Nat := (a + (2 ^ 16 - b % 2 ^ 16)) % 2 ^ 16

/-- Wrapping u32 subtraction (release-mode Rust semantics). -/
def wsub32 (a b : Nat) : Nat := (a + (2 ^ 32 - b % 2 ^ 32)) % 2 ^ 32

/-- u64::abs_diff. -/
def absDiff (a b : Nat) : Nat := if a ≤ b then b - a else a - b

/-- Reinterpret the low 8 bits of a machine word as a signed i8 (the as-i8
cast of the source). -/
def toI8 (n : Nat) : Int :=
  if n % 256 < 128 then ((n % 256 : Nat) : Int) else ((n % 256 : Nat) : Int) - 256

/-- is_bit_set of the source. -/
def is_bit_set (byte i : Nat) : Bool := byte &&& (1 <<< i) != 0

/-- Inner sum of get_bits_value: bit number i of the output is bit bits[i]
of the input byte. -/
def get_bits_valueAux (byte : Nat) : List Nat → Nat → Nat
  | [], _ => 0
  | b :: t, i => (if is_bit_set byte b then 2 ^ i else 0) + get_bits_valueAux byte t (i + 1)

/-- get_bits_value of the source. -/
def get_bits_value (byte : Nat) (bits : List Nat) : Nat := get_bits_valueAux byte bits 0

/-- decode_gamesettings of the source, walking the bytes in order with the
running index i (for the mod-8 frame position) and the current mask byte.
The source indexes enc[i] in a while loop; walking the suffix structurally is
the same access pattern, and running off the end is the index panic of the
source, hence none. -/
def decode_gamesettingsAux : List Nat → Nat → Nat → Option (List Nat)
  | [], _, _ => none
  | b :: t, i, mask =>
    if b = 0 then some []
    else if i % 8 = 0 then decode_gamesettingsAux t (i + 1) b
    else if mask &&& (1 <<< (i % 8)) = 0 then
      (decode_gamesettingsAux t (i + 1) mask).map (fun r => (b - 1) :: r)
    else
      (decode_gamesettingsAux t (i + 1) mask).map (fun r => b :: r)

/-- decode_gamesettings of the source. -/
def decode_gamesettings (enc : List Nat) : Option (List Nat) :=
  decode_gamesettingsAux enc 0 0

/-- Association-list insert with HashMap semantics: replace the entry when
the key exists, otherwise add it. -/
def insEntry (k : Nat) (v : ReplayPlayer) : List (Nat × ReplayPlayer) → List (Nat × ReplayPlayer)
  | [] => [(k, v)]
  | (k', v') :: t => if k' = k then (k, v) :: t else (k', v') :: insEntry k v t

/-- Association-list analogue of HashMap entry().and_modify(): apply f to the
entry when the key exists, otherwise change nothing. -/
def updEntry (k : Nat) (f : ReplayPlayer → ReplayPlayer) : List (Nat × ReplayPlayer) → List (Nat × ReplayPlayer)
  | [] => []
  | (k', v') :: t => if k' = k then (k', f v') :: t else (k', v') :: updEntry k f t

/-- One 9-byte slot record, in the read order of the source: player_id,
map_download_percent, status, is_computer, team_index, color (incremented by
one before lookup, wrapping as u8), race, ai_strength, handicap_percent. -/
def parseSlot (d : List Nat) (p0 : Nat) : Option (Slot × Nat) := do
  let (pid, p) ← readByte d p0
  let (mdp, p) ← readByte d p
  let (statusByte, p) ← readByte d p
  let (compByte, p) ← readByte d p
  let (team, p) ← readByte d p
  let (colorByte, p) ← readByte d p
  let (raceByte, p) ← readByte d p
  let (aiByte, p) ← readByte d p
  let (handicap, p) ← readByte d p
  pure ({ player_id := pid
          map_download_percent := mdp
          status := (SlotStatus.from_u8 statusByte).getD .UNKNOWN
          is_computer := compByte == 1
          team_index := team
          color := (SlotColor.from_u8 ((colorByte + 1) % 256)).getD .UNKNOWN
          race := (SlotRace.from_u8 raceByte).getD .UNKNOWN
          ai_strength := (ComputerAIStrength.from_u8 aiByte).getD .UNKNOWN
          handicap_percent := handicap }, p)

/-- The count-driven slot loop of the source. -/
def parseSlots (d : List Nat) : Nat → Nat → Option (List Slot × Nat)
  | 0, p => some ([], p)
  | n + 1, p => do
    let (s, p1) ← parseSlot d p
    let (rest, p2) ← parseSlots d n p1
    pure (s :: rest, p2)

/-- The GameStartRecord payload: advisory data_length (u16), count of slot
records (u8), then exactly that many 9-byte slot records. -/
def parseSlotTable (d : List Nat) (p0 : Nat) : Option (List Slot × Nat) := do
  let (_dataLength, p) ← readWord d p0
  let (count, p) ← readByte d p
  parseSlots d count p

/-- GameSettings bit extraction of the source (indexing a too-short decoded
buffer panics in the source, hence the option binds). -/
def parseGameSettings (buf : List Nat) : Option GameSettings := do
  let b0 ← buf.get? 0
  let b1 ← buf.get? 1
  let b2 ← buf.get? 2
  let b3 ← buf.get? 3
  pure { game_speed := get_bits_value b0 [0, 1]
         vis_hide_terrain := get_bits_value b1 [0] == 1
         vis_map_explored := get_bits_value b1 [1] == 1
         vis_always_visible := get_bits_value b1 [2] == 1
         vis_default := get_bits_value b1 [3] == 1
         obs_mode := get_bits_value b1 [4, 5]
         teams_together := get_bits_value b1 [6] == 1
         fixed_teams := get_bits_value b2 [1, 2]
         shared_unit_control := get_bits_value b3 [0] == 1
         random_hero := get_bits_value b3 [1] == 1
         random_races := get_bits_value b3 [2] == 1
         obs_referees := get_bits_value b3 [6] == 1 }

/-- Map name and creator tag: two cstrings read from offset 13 of the decoded
settings buffer (slicing below offset 13 panics in the source). -/
def parseMapCreator (buf : List Nat) : Option (List Nat × List Nat) :=
  if buf.length < 13 then none
  else do
    let sub := buf.drop 13
    let (mapName, q) ← readCString sub 0
    let (creator, _) ← readCString sub q
    pure (mapName, creator)

/-- The PlayerList loop: while the peeked record id is 0x00 or 0x16, read a
player id, a cstring name, a length byte and skip that many bytes, insert the
player, and peek again.  Returns the mapping, the first non-list record id
and the position after it. -/
def playerListLoop (d : List Nat) :
    Nat → List (Nat × ReplayPlayer) → Nat → Nat →
    Option (List (Nat × ReplayPlayer) × Nat × Nat)
  | 0, _, _, _ => none
  | fuel + 1, ps, p0, rid =>
    if rid = 0x00 ∨ rid = 0x16 then do
      let (pid, p) ← readByte d p0
      let (name, p) ← readCString d p
      let (k, p) ← readByte d p
      let (rid', p') ← readByte d (p + k)
      playerListLoop d fuel (insEntry pid ⟨name, .UNKNOWN, 0, 0⟩ ps) p' rid'
    else some (ps, rid, p0)

/-- The Reforged metadata loop: while the record id is 0x39, read a subtype
byte and a u32 length, skip that many bytes, and read the next id. -/
def reforgedLoop (d : List Nat) : Nat → Nat → Nat → Option (Nat × Nat)
  | 0, _, _ => none
  | fuel + 1, p0, rid =>
    if rid = 0x39 then do
      let (_subtype, p) ← readByte d p0
      let (len, p) ← readDword d p
      let (rid', p') ← readByte d (p + len)
      reforgedLoop d fuel p' rid'
    else some (rid, p0)

/-- Output of the header and metadata phase (sections 4.1 to 4.10 of the
source, up to and including the 0x19 check). -/
structure HeaderOut where
  player_is_host : Bool
  game_name : List Nat
  game_settings : GameSettings
  map_name : List Nat
  game_creator_battle_tag : List Nat
  players : List (Nat × ReplayPlayer)
  pos : Nat
  deriving DecidableEq

/-- Sections 4.1 to 4.10 of Replay::from_bytes on the inflated stream:
PlayerRecord, GameName, encoded settings, GameSettings bits, map and creator,
PlayerCount, GameType, LanguageID, PlayerList, Reforged metadata, and the
mandatory 0x19 GameStartRecord id.  The returned position is just after the
0x19 byte. -/
def parseHeaderPhase (d : List Nat) : Option HeaderOut := do
  let (hostTag, p) ← readByte d 0
  let (player_id, p) ← readByte d p
  let (player_name, p) ← readCString d (p + 4)
  let (k, p) ← readByte d p
  let (game_name, p) ← readCString d (p + k)
  let p := p + 1
  let encBuf := takeUntilZero (d.drop p)
  let p := p + encBuf.length
  let buf ← decode_gamesettings encBuf
  let gs ← parseGameSettings buf
  let (map_name, creator) ← parseMapCreator buf
  let (_numPlayersSlots, p) ← readDword d p
  let (_gameType, p) ← readByte d p
  let (_isPrivate, p) ← readByte d p
  let (rid0, p) ← readByte d (p + 2 + 4)
  let players0 := insEntry player_id ⟨player_name, .UNKNOWN, 0, 0⟩ []
  let (players1, rid1, p) ← playerListLoop d (d.length + 1) players0 p rid0
  let (rid2, p) ← reforgedLoop d (d.length + 1) p rid1
  if rid2 = 0x19 then
    pure ⟨hostTag == 0, game_name, gs, map_name, creator, players1, p⟩
  else none

/-- The 0x60 ChatCommand push of the source: append the command as a
ChatMessage unless some recorded message has the same text and a timestamp
within 500 ms of the current one. -/
def chatCmdAppend (actor ts : Nat) (chat : List ChatMessage) (command : List Nat) :
    List ChatMessage :=
  if chat.any (fun el => el.message == command && absDiff el.timestamp ts < 500) then chat
  else chat ++ [⟨actor, none, none, command, ts⟩]

/-- The action body dispatch of the source (the match on the action id inside
a TimeSlot action block).  Arguments: pbr is the position snapshot taken
before the first action of the current actor block (position_before_read),
blockLen the declared block length, pos the position just after the action id
byte.  Returns the new position, the cstring read by the 0x60 ChatCommand arm
(whose deduped chat append the action walk applies), the optional action
data, and whether the default arm broke out of the actor block. -/
def handleActionBody (d : List Nat) (pbr blockLen : Nat) (aid pos : Nat) :
    Option (Nat × Option (List Nat) × Option ActionData × Bool) :=
  if aid = 0x01 then some (pos, none, none, false)
  else if aid = 0x02 then some (pos, none, none, false)
  else if aid = 0x03 then (readByte d pos).map (fun r => (r.2, none, none, false))
  else if aid = 0x04 then some (pos, none, none, false)
  else if aid = 0x05 then some (pos, none, none, false)
  else if aid = 0x06 then
    (readCString d pos).map (fun r => (r.2, none, some ⟨none, some r.1⟩, false))
  else if aid = 0x07 then some (pos + 4, none, none, false)
  else if aid = 0x10 then some (pos + 14, none, none, false)
  else if aid = 0x11 then some (pos + 22, none, none, false)
  else if aid = 0x12 then some (pos + 30, none, none, false)
  else if aid = 0x13 then some (pos + 38, none, none, false)
  else if aid = 0x14 then some (pos + 43, none, none, false)
  else if aid = 0x16 then do
    let (_mode, p) ← readByte d pos
    let (n, p) ← readWord d p
    pure (p + 8 * n, none, none, false)
  else if aid = 0x17 then do
    let (_group, p) ← readByte d pos
    let (n, p) ← readWord d p
    pure (p + 8 * n, none, none, false)
  else if aid = 0x18 then some (pos + 2, none, none, false)
  else if aid = 0x19 then some (pos + 12, none, none, false)
  else if aid = 0x1A then some (pos, none, none, false)
  else if aid = 0x1B then some (pos + 9, none, none, false)
  else if aid = 0x1C then some (pos + 9, none, none, false)
  else if aid = 0x1D then some (pos + 8, none, none, false)
  else if aid = 0x1E then some (pos + 5, none, none, false)
  else if aid = 0x21 then some (pos + 8, none, none, false)
  else if aid = 0x20 then some (pos, none, none, false)
  else if aid = 0x22 then some (pos, none, none, false)
  else if aid = 0x23 then some (pos, none, none, false)
  else if aid = 0x24 then some (pos, none, none, false)
  else if aid = 0x25 then some (pos, none, none, false)
  else if aid = 0x26 then some (pos, none, none, false)
  else if aid = 0x27 then some (pos + 5, none, none, false)
  else if aid = 0x29 then some (pos, none, none, false)
  else if aid = 0x2A then some (pos, none, none, false)
  else if aid = 0x2B then some (pos, none, none, false)
  else if aid = 0x2C then some (pos, none, none, false)
  else if aid = 0x2D then some (pos + 5, none, none, false)
  else if aid = 0x2E then some (pos + 4, none, none, false)
  else if aid = 0x2F then some (pos, none, none, false)
  else if aid = 0x30 then some (pos, none, none, false)
  else if aid = 0x31 then some (pos, none, none, false)
  else if aid = 0x32 then some (pos, none, none, false)
  else if aid = 0x50 then some (pos + 5, none, none, false)
  else if aid = 0x51 then some (pos + 9, none, none, false)
  else if aid = 0x60 then do
    let (_buf, p) ← readExact d pos 8
    let (command, p) ← readCString d p
    pure (p, some command, none, false)
  else if aid = 0x61 then some (pos, none, none, false)
  else if aid = 0x62 then some (pos + 12, none, none, false)
  else if aid = 0x66 then some (pos, none, none, false)
  else if aid = 0x67 then some (pos, none, none, false)
  else if aid = 0x68 then do
    let (x, p) ← readDword d pos
    let (y, p) ← readDword d p
    pure (p, none, some ⟨some ⟨x, y⟩, none⟩, false)
  else if aid = 0x69 then some (pos + 16, none, none, false)
  else if aid = 0x6A then some (pos + 16, none, none, false)
  else if aid = 0x75 then some (pos + 1, none, none, false)
  else if aid = 0x7A then some (pos + 20, none, none, false)
  else if aid = 0x7B then some (pos + 16, none, none, false)
  else
    let leftBytes := ((blockLen + (2 ^ 64 - pos % 2 ^ 64)) % 2 ^ 64 + pbr) % 2 ^ 64
    (readExact d pos leftBytes).map (fun r => (r.2, none, none, true))

/-- The inner action walk of one actor block: while fewer than blockLen bytes
are consumed, read an action id, dispatch on it, apply the deduped chat
append when the 0x60 arm returns a command, and (unless the default arm
broke out) append the action.  The consumed-byte counter is a u16 in the
source. -/
def actionLoop (d : List Nat) (pbr blockLen actor ts : Nat) :
    Nat → Nat → Nat → List ChatMessage → List Action →
    Option (Nat × List ChatMessage × List Action)
  | 0, _, _, _, _ => none
  | fuel + 1, curRead, pos, chat, actions =>
    if curRead < blockLen then
      match readByte d pos with
      | none => none
      | some (aid, p1) =>
        match handleActionBody d pbr blockLen aid p1 with
        | none => none
        | some (p2, cmdOpt, dat, brk) =>
          let chat2 := match cmdOpt with
            | some cmd => chatCmdAppend actor ts chat cmd
            | none => chat
          if brk then some (p2, chat2, actions)
          else
            actionLoop d pbr blockLen actor ts fuel
              ((curRead + (p2 - pos) % 2 ^ 16) % 2 ^ 16) p2 chat2
              (actions ++ [⟨actor, ts, (ActionType.from_u8 aid).getD .UNKNOWN, dat⟩])
    else some (pos, chat, actions)

/-- The per-actor block loop of a TimeSlot: read the actor id and the block
length, mark the actor as seen (left_at), walk the actor block, and continue
while the wrapped remaining length is at least one. -/
def blockLoop (d : List Nat) (ts : Nat) :
    Nat → Nat → Nat → List (Nat × ReplayPlayer) → List ChatMessage → List Action →
    Option (Nat × List (Nat × ReplayPlayer) × List ChatMessage × List Action)
  | 0, _, _, _, _, _ => none
  | fuel + 1, lenFollowing, pos, players, chat, actions =>
    match readByte d pos with
    | none => none
    | some (actor, p1) =>
      match readWord d p1 with
      | none => none
      | some (blockLen, p2) =>
        let lf1 := wsub16 lenFollowing 3
        let players1 := updEntry actor (fun pl => { pl with left_at := ts }) players
        match actionLoop d p2 blockLen actor ts (d.length + 1) 0 p2 chat actions with
        | none => none
        | some (p3, chat3, actions3) =>
          let lf2 := wsub16 lf1 ((p3 - p2) % 2 ^ 16)
          if lf2 < 1 then some (p3, players1, chat3, actions3)
          else blockLoop d ts fuel lf2 p3 players1 chat3 actions3

/-- Decoder state carried through the record-stream loop of section 5.0.
The records and action_records tally maps of the source only feed log
statements and are omitted: no output field depends on them. -/
structure RecState where
  pos : Nat
  players : List (Nat × ReplayPlayer)
  chat : List ChatMessage
  currentTimestamp : Nat
  actions : List Action
  lastLeaverIndex : Nat
  deriving DecidableEq

/-- Result of one record dispatch: continue with the next record id, or stop
(0x00 terminator or unknown record id). -/
inductive StepOut where
  | next (st : RecState)
  | stop (st : RecState)
  deriving DecidableEq

/-- One arm of the record-stream dispatch of the source, for the record id
rid with the cursor just after the id byte. -/
def recordStep (d : List Nat) (rid : Nat) (st : RecState) : Option StepOut :=
  if rid = 0x17 then do
    let (reasonVal, p) ← readDword d st.pos
    let (pid, p) ← readByte d p
    let (result, p) ← readDword d p
    pure (.next { st with
      pos := p + 4
      players := updEntry pid (fun pl => { pl with
        leave_reason := (LeaveReason.from_u32 reasonVal).getD .UNKNOWN
        result_byte := result % 256 }) st.players
      lastLeaverIndex := pid })
  else if rid = 0x1A then pure (.next { st with pos := st.pos + 4 })
  else if rid = 0x1B then pure (.next { st with pos := st.pos + 4 })
  else if rid = 0x1C then pure (.next { st with pos := st.pos + 4 })
  else if rid = 0x1E ∨ rid = 0x1F then do
    let (lf0, p) ← readWord d st.pos
    let (increment, p) ← readWord d p
    let ts := (st.currentTimestamp + increment) % 2 ^ 64
    let lf := wsub16 lf0 2
    if lf > 3 then do
      let (p', players', chat', actions') ←
        blockLoop d ts (d.length + 1) lf p st.players st.chat st.actions
      pure (.next { st with pos := p', players := players', chat := chat',
                            actions := actions', currentTimestamp := ts })
    else
      pure (.next { st with pos := p, currentTimestamp := ts })
  else if rid = 0x20 then do
    let (sender, p) ← readByte d st.pos
    let (flag, p) ← readByte d (p + 2)
    let (recipRaw, p) ← readDword d p
    let (msg, p) ← readCString d p
    pure (.next { st with
      pos := p
      chat := st.chat ++
        [⟨sender, some (toI8 (wsub32 recipRaw 2)), some flag, msg, st.currentTimestamp⟩] })
  else if rid = 0x22 then pure (.next { st with pos := st.pos + 5 })
  else if rid = 0x23 then pure (.next { st with pos := st.pos + 10 })
  else if rid = 0x2F then pure (.next { st with pos := st.pos + 8 })
  else if rid = 0x00 then pure (.stop st)
  else pure (.stop st)

/-- The record-stream loop: dispatch on the current record id; on a continue
outcome read the next id byte (a failed read is a panic in the source) and
iterate. -/
def recordLoop (d : List Nat) : Nat → Nat → RecState → Option RecState
  | 0, _, _ => none
  | fuel + 1, rid, st =>
    match recordStep d rid st with
    | none => none
    | some (.stop st') => some st'
    | some (.next st') =>
      match readByte d st'.pos with
      | none => none
      | some (rid', p') => recordLoop d fuel rid' { st' with pos := p' }

/-- Report assembly of the source: metadata.saving_player_id is assigned
last_leaver_index (the computed candidate set is not used). -/
def assemble (version : Nat) (hdr : HeaderOut) (slots : List Slot) (final : RecState) :
    Replay :=
  { version := version
    metadata := ⟨final.lastLeaverIndex, hdr.player_is_host, hdr.game_name,
                 hdr.map_name, hdr.game_creator_battle_tag⟩
    game_settings := hdr.game_settings
    slots := slots
    players := final.players
    chat := final.chat
    actions := final.actions }

/-- Replay::from_bytes from the inflated stream onward.  The version byte
comes from the container header (out of scope here) and is passed through.
Loop fuels are d.length + 1: every loop iteration ends with a successful
one-byte read strictly advancing the position, so the fuel is never the
reason a parse of d fails. -/
def from_data (version : Nat) (d : List Nat) : Option Replay := do
  let hdr ← parseHeaderPhase d
  let (slots, p) ← parseSlotTable d hdr.pos
  let (_seed, p) ← readDword d p
  let (_selMode, p) ← readByte d p
  let (_spots, p) ← readByte d p
  let (ridStart, p) ← readByte d p
  let final ← recordLoop d (d.length + 1) ridStart ⟨p, hdr.players, [], 0, [], 0⟩
  pure (assemble version hdr slots final)

/-- Index of the first zero of a byte list (its length when no zero occurs). -/
def firstZero : List Nat → Nat
  | [] => 0
  | b :: t => if b = 0 then 0 else firstZero t + 1

/-- Spec reading of the game-settings decoding: the emitted values are, for
each index i strictly before the first zero with i not a multiple of eight,
the byte itself when bit (i mod 8) of the mask byte opening the current
8-byte frame is one, and the byte minus one otherwise. -/
def gamesettingsSpec (enc : List Nat) : List Nat :=
  ((List.range (firstZero enc)).filter (fun i => !(i % 8 == 0))).map
    (fun i => if (enc.getD (8 * (i / 8)) 0).testBit (i % 8) then enc.getD i 0
              else enc.getD i 0 - 1)

/-- Spec reading of a slot record: built from nine consecutive bytes in the
order player_id, map_download_percent, status, is_computer, team_index,
color, race, ai_strength, handicap_percent. -/
def slotOfBytes (b : List Nat) : Slot :=
  { player_id := b.getD 0 0
    map_download_percent := b.getD 1 0
    status := (SlotStatus.from_u8 (b.getD 2 0)).getD .UNKNOWN
    is_computer := b.getD 3 0 == 1
    team_index := b.getD 4 0
    color := (SlotColor.from_u8 ((b.getD 5 0 + 1) % 256)).getD .UNKNOWN
    race := (SlotRace.from_u8 (b.getD 6 0)).getD .UNKNOWN
    ai_strength := (ComputerAIStrength.from_u8 (b.getD 7 0)).getD .UNKNOWN
    handicap_percent := b.getD 8 0 }

/-- Spec reading of a signed 8-bit reinterpretation of an integer reduced
mod 256. -/
def signed8 (n : Int) : Int := if n % 256 < 128 then n % 256 else n % 256 - 256

/-- Keys of the players mapping. -/
def keysOf (ps : List (Nat × ReplayPlayer)) : List Nat := ps.map Prod.fst

/-- Minimal header-phase byte stream shared by the concrete decodes. -/
def hdrBytes : List Nat :=
  [0, 1, 0, 0, 0, 0, 65, 0, 0, 71, 0, 0,
   255, 2, 2, 2, 2, 1, 1, 1, 255, 1, 1, 1, 1, 1, 1, 77, 1, 1, 1, 0,
   1, 0, 0, 0, 0, 0, 0, 0, 0, 0, 0, 0,
   22, 2, 66, 0, 0, 25, 0, 0, 0, 0, 0, 0, 0, 0, 0]

/-- Fixture for the saving-player claim: player 2 leaves with reason 0x0C
(the only CONNECTION_CLOSED_BY_LOCAL_GAME entry), then player 1 leaves with
reason 0x01, so the last 0x17 record names player 1. -/
def c1data : List Nat :=
  hdrBytes ++
  [23, 12, 0, 0, 0, 2, 0, 0, 0, 0, 0, 0, 0, 0,
   23, 1, 0, 0, 0, 1, 0, 0, 0, 0, 0, 0, 0, 0, 0]

/-- Fixture for the membership claim: one TimeSlot with increment 100 whose
single actor block is attributed to player 99, who is not in the players
mapping; the block holds one 0x01 PAUSE action. -/
def c3data : List Nat :=
  hdrBytes ++ [30, 6, 0, 100, 0, 99, 1, 0, 1, 0]

/-- Minimal full decode: the record stream is a lone 0x00 terminator. -/
def minData : List Nat := hdrBytes ++ [0]

/-- The game settings decoded from hdrBytes (settings bytes 2, 2, 2, 2). -/
def gsMin : GameSettings :=
  ⟨2, false, true, false, false, 0, false, 1, false, true, false, false⟩

/-- The report produced by decoding minData. -/
def rMin : Replay :=
  { version := 1
    metadata := ⟨0, true, [71], [77], []⟩
    game_settings := gsMin
    slots := []
    players := [(1, ⟨[65], .UNKNOWN, 0, 0⟩), (2, ⟨[66], .UNKNOWN, 0, 0⟩)]
    chat := []
    actions := [] }

/-- A standalone two-record slot table: advisory length 5, count 2, then two
9-byte records. -/
def c9d : List Nat :=
  [5, 0, 2, 1, 100, 2, 0, 0, 3, 1, 0, 100, 2, 100, 0, 1, 1, 4, 2, 1, 90]

/-- The slots parsed from c9d. -/
def c9slots : List Slot :=
  [slotOfBytes [1, 100, 2, 0, 0, 3, 1, 0, 100], slotOfBytes [2, 100, 0, 1, 1, 4, 2, 1, 90]]

/-- The report decoded from c3data: like rMin but with the one PAUSE action
of the unknown player 99. -/
def c3replay : Replay := { rMin with actions := [⟨99, 100, .PAUSE, none⟩] }

/-- Header-phase output used by the amended-claim witnesses. -/
def hdr0 : HeaderOut := ⟨true, [], gsMin, [], [], [], 0⟩

/-- Emission function of the spec-side gamesettings decoding. -/
def gsEmit (enc : List Nat) (j : Nat) : Nat :=
  if (enc.getD (8 * (j / 8)) 0).testBit (j % 8) then enc.getD j 0 else enc.getD j 0 - 1

/-- Concrete 0x20 record body: sender 5, two skipped bytes, flag 7, raw
recipient dword 0, empty message. -/
def c6d : List Nat := [5, 0, 0, 7, 0, 0, 0, 0, 0]

/-- Empty starting state for the record-loop step witnesses. -/
def emptySt : RecState := ⟨0, [], [], 0, [], 0⟩

/-- Concrete 0x60 action body: eight skipped bytes then the cstring hi. -/
def c5d : List Nat := [0, 0, 0, 0, 0, 0, 0, 0, 104, 105, 0]

/-- Concrete 0x17 record body: reason dword 12, player id 9, result dword 0,
four skipped bytes. -/
def c10d : List Nat := [12, 0, 0, 0, 9, 0, 0, 0, 0, 0, 0, 0, 0]

/-- State whose players mapping holds only player 1. -/
def oneSt : RecState := ⟨0, [(1, ⟨[65], .UNKNOWN, 0, 0⟩)], [], 0, [], 0⟩

/-- Loop invariant: the chat and action lists are sorted by timestamp and
every recorded timestamp is at most the current clock. -/
def Inv (st : RecState) : Prop :=
  st.chat.Pairwise (fun a b => a.timestamp ≤ b.timestamp) ∧
  st.actions.Pairwise (fun a b => a.timestamp ≤ b.timestamp) ∧
  (∀ c ∈ st.chat, c.timestamp ≤ st.currentTimestamp) ∧
  (∀ a ∈ st.actions, a.timestamp ≤ st.currentTimestamp)

theorem readByte_lt (d : List Nat) (p : Nat) (h : p < d.length) :
    readByte d p = some (d.getD p 0, p + 1) := by
  unfold readByte
  rw [List.get?_eq_getElem?, List.getElem?_eq_getElem h, List.getD_eq_getElem d 0 h]

theorem readByte_eq_some {d : List Nat} {p b q : Nat} :
    readByte d p = some (b, q) ↔ d.get? p = some b ∧ q = p + 1 := by
  unfold readByte
  cases h : d.get? p with
  | none => simp
  | some a => simp [h, eq_comm, and_comm]

theorem readByte_pos {d : List Nat} {p b q : Nat} (h : readByte d p = some (b, q)) :
    q = p + 1 := (readByte_eq_some.mp h).2

theorem readWord_pos {d : List Nat} {p w q : Nat} (h : readWord d p = some (w, q)) :
    q = p + 2 := by
  unfold readWord at h
  split at h <;> simp at h <;> omega

theorem readDword_pos {d : List Nat} {p w q : Nat} (h : readDword d p = some (w, q)) :
    q = p + 4 := by
  unfold readDword at h
  split at h <;> simp at h <;> omega

/-- On a stream of genuine bytes the value read by cursor_read_word fits in
a u16. -/
theorem readWord_lt {d : List Nat} {p w q : Nat} (hv : ∀ b ∈ d, b < 256)
    (h : readWord d p = some (w, q)) : w < 2 ^ 16 := by
  unfold readWord at h
  split at h
  · rename_i a b ha hb
    simp only [Option.some.injEq, Prod.mk.injEq] at h
    have ha2 := hv a (List.get?_mem ha)
    have hb2 := hv b (List.get?_mem hb)
    have hw : w = a + 256 * b := by rw [← h.1]; rfl
    omega
  · exact absurd h (by simp)

/-- C2: evaluation of the race coercion of the source at the wire bytes the
claim names.  Byte 0x20 yields UNKNOWN (not RANDOM) and byte 0x40 yields
UNKNOWN (not FIXED); the decimal bytes 20 and 40 yield RANDOM and FIXED,
both at the enum lookup and through the 9-byte slot parser. -/
theorem c2_race_byte_mapping :
    (SlotRace.from_u8 0x20).getD .UNKNOWN = SlotRace.UNKNOWN ∧
    (SlotRace.from_u8 0x40).getD .UNKNOWN = SlotRace.UNKNOWN ∧
    (SlotRace.from_u8 20).getD .UNKNOWN = SlotRace.RANDOM ∧
    (SlotRace.from_u8 40).getD .UNKNOWN = SlotRace.FIXED ∧
    (parseSlot [0, 0, 0, 0, 0, 0, 0x20, 0, 0] 0).map (fun r => r.1.race) =
      some SlotRace.UNKNOWN ∧
    (parseSlot [0, 0, 0, 0, 0, 0, 20, 0, 0] 0).map (fun r => r.1.race) =
      some SlotRace.RANDOM := by
  decide

set_option maxHeartbeats 1600000 in
/-- C8: every enum byte of a slot record outside the defined set of its enum
coerces to UNKNOWN; the color byte is incremented by one before lookup, so
color byte 24 yields OBSERVER and color byte 99 yields UNKNOWN; and the slot
parser never fails on enum grounds: any nine available bytes parse. -/
theorem c8_enum_coercion :
    (∀ b : Nat, ¬(b = 0 ∨ b = 1 ∨ b = 2) →
      (SlotStatus.from_u8 b).getD .UNKNOWN = SlotStatus.UNKNOWN) ∧
    (∀ b : Nat, ¬(b = 1 ∨ b = 2 ∨ b = 4 ∨ b = 8 ∨ b = 20 ∨ b = 40) →
      (SlotRace.from_u8 b).getD .UNKNOWN = SlotRace.UNKNOWN) ∧
    (∀ b : Nat, ¬(b = 0 ∨ b = 1 ∨ b = 2) →
      (ComputerAIStrength.from_u8 b).getD .UNKNOWN = ComputerAIStrength.UNKNOWN) ∧
    (∀ b : Nat, ¬(1 ≤ (b + 1) % 256 ∧ (b + 1) % 256 ≤ 25) →
      (SlotColor.from_u8 ((b + 1) % 256)).getD .UNKNOWN = SlotColor.UNKNOWN) ∧
    (SlotColor.from_u8 ((24 + 1) % 256)).getD .UNKNOWN = SlotColor.OBSERVER ∧
    (SlotColor.from_u8 ((99 + 1) % 256)).getD .UNKNOWN = SlotColor.UNKNOWN ∧
    (∀ (d : List Nat) (p : Nat), p + 9 ≤ d.length → (parseSlot d p).isSome) := by
  refine ⟨?_, ?_, ?_, ?_, by decide, by decide, ?_⟩
  · intro b hb
    push_neg at hb
    obtain ⟨h0, h1, h2⟩ := hb
    unfold SlotStatus.from_u8
    rw [if_neg h0, if_neg h1, if_neg h2]
    split <;> rfl
  · intro b hb
    push_neg at hb
    obtain ⟨h1, h2, h4, h8, h20, h40⟩ := hb
    unfold SlotRace.from_u8
    rw [if_neg h1, if_neg h2, if_neg h4, if_neg h8, if_neg h20, if_neg h40]
    split <;> rfl
  · intro b hb
    push_neg at hb
    obtain ⟨h0, h1, h2⟩ := hb
    unfold ComputerAIStrength.from_u8
    rw [if_neg h0, if_neg h1, if_neg h2]
    split <;> rfl
  · intro b hb
    have hlt : (b + 1) % 256 < 256 := Nat.mod_lt _ (by omega)
    generalize hc : (b + 1) % 256 = c at hb hlt ⊢
    interval_cases c <;> first
      | decide
      | exact absurd (by decide) hb
  · intro d p h
    have h0 := readByte_lt d p (by omega)
    have h1 := readByte_lt d (p + 1) (by omega)
    have h2 := readByte_lt d (p + 2) (by omega)
    have h3 := readByte_lt d (p + 3) (by omega)
    have h4 := readByte_lt d (p + 4) (by omega)
    have h5 := readByte_lt d (p + 5) (by omega)
    have h6 := readByte_lt d (p + 6) (by omega)
    have h7 := readByte_lt d (p + 7) (by omega)
    have h8 := readByte_lt d (p + 8) (by omega)
    simp [parseSlot, h0, h1, h2, h3, h4, h5, h6, h7, h8]

theorem getD_drop_take {d : List Nat} {p j n : Nat} (hj : j < n) :
    ((d.drop p).take n).getD j 0 = d.getD (p + j) 0 := by
  simp [List.getD, List.getElem?_take_of_lt hj, List.getElem?_drop]

theorem getD_of_get? {d : List Nat} {n b : Nat} (h : d.get? n = some b) :
    d.getD n 0 = b := by
  rw [List.get?_eq_getElem?] at h
  simp [List.getD, h]

theorem lt_of_get? {d : List Nat} {n b : Nat} (h : d.get? n = some b) :
    n < d.length := by
  by_contra hge
  rw [List.get?_eq_none.mpr (by omega)] at h
  exact Option.noConfusion h

/-- Inversion of the slot parser: success consumes exactly nine bytes and
produces the slot built from them in field order. -/
theorem parseSlot_spec {d : List Nat} {p : Nat} {s : Slot} {q : Nat}
    (h : parseSlot d p = some (s, q)) :
    q = p + 9 ∧ p + 9 ≤ d.length ∧ s = slotOfBytes ((d.drop p).take 9) := by
  unfold parseSlot at h
  simp only [bind, Option.bind_eq_some] at h
  obtain ⟨⟨b0, p1⟩, h0, ⟨b1, p2⟩, h1, ⟨b2, p3⟩, h2, ⟨b3, p4⟩, h3, ⟨b4, p5⟩, h4,
    ⟨b5, p6⟩, h5, ⟨b6, p7⟩, h6, ⟨b7, p8⟩, h7, ⟨b8, p9⟩, h8, hfin⟩ := h
  obtain ⟨g0, rfl⟩ := readByte_eq_some.mp h0
  obtain ⟨g1, rfl⟩ := readByte_eq_some.mp h1
  obtain ⟨g2, rfl⟩ := readByte_eq_some.mp h2
  obtain ⟨g3, rfl⟩ := readByte_eq_some.mp h3
  obtain ⟨g4, rfl⟩ := readByte_eq_some.mp h4
  obtain ⟨g5, rfl⟩ := readByte_eq_some.mp h5
  obtain ⟨g6, rfl⟩ := readByte_eq_some.mp h6
  obtain ⟨g7, rfl⟩ := readByte_eq_some.mp h7
  obtain ⟨g8, rfl⟩ := readByte_eq_some.mp h8
  simp only [pure, Option.some.injEq, Prod.mk.injEq] at hfin
  obtain ⟨hs, hq⟩ := hfin
  have hlen : p + 9 ≤ d.length := by
    have := lt_of_get? g8
    omega
  refine ⟨by omega, hlen, ?_⟩
  have e0 : ((d.drop p).take 9).getD 0 0 = b0 := by
    rw [getD_drop_take (by omega), Nat.add_zero, getD_of_get? g0]
  have e1 : ((d.drop p).take 9).getD 1 0 = b1 := by
    rw [getD_drop_take (by omega), getD_of_get? g1]
  have e2 : ((d.drop p).take 9).getD 2 0 = b2 := by
    rw [getD_drop_take (by omega), getD_of_get? g2]
  have e3 : ((d.drop p).take 9).getD 3 0 = b3 := by
    rw [getD_drop_take (by omega), getD_of_get? g3]
  have e4 : ((d.drop p).take 9).getD 4 0 = b4 := by
    rw [getD_drop_take (by omega), getD_of_get? g4]
  have e5 : ((d.drop p).take 9).getD 5 0 = b5 := by
    rw [getD_drop_take (by omega), getD_of_get? g5]
  have e6 : ((d.drop p).take 9).getD 6 0 = b6 := by
    rw [getD_drop_take (by omega), getD_of_get? g6]
  have e7 : ((d.drop p).take 9).getD 7 0 = b7 := by
    rw [getD_drop_take (by omega), getD_of_get? g7]
  have e8 : ((d.drop p).take 9).getD 8 0 = b8 := by
    rw [getD_drop_take (by omega), getD_of_get? g8]
  rw [← hs]
  unfold slotOfBytes
  rw [e0, e1, e2, e3, e4, e5, e6, e7, e8]

/-- Inversion of the slot loop: n records consume exactly 9n bytes, the list
has length n, and record j is built from the nine bytes at offset 9j. -/
theorem parseSlots_spec {d : List Nat} :
    ∀ (n p : Nat) (slots : List Slot) (q : Nat),
      parseSlots d n p = some (slots, q) →
      slots.length = n ∧ q = p + 9 * n ∧
      ∀ j < n, slots.get? j = some (slotOfBytes ((d.drop (p + 9 * j)).take 9)) := by
  intro n
  induction n with
  | zero =>
    intro p slots q h
    simp only [parseSlots, Option.some.injEq, Prod.mk.injEq] at h
    obtain ⟨rfl, rfl⟩ := h
    simp
  | succ m ih =>
    intro p slots q h
    unfold parseSlots at h
    simp only [bind, Option.bind_eq_some] at h
    obtain ⟨⟨s, p1⟩, hs, ⟨rest, p2⟩, hrest, hfin⟩ := h
    obtain ⟨rfl, hlen, hsval⟩ := parseSlot_spec hs
    obtain ⟨hl, hq, hidx⟩ := ih (p + 9) rest p2 hrest
    simp only [pure, Option.some.injEq, Prod.mk.injEq] at hfin
    obtain ⟨rfl, rfl⟩ := hfin
    refine ⟨by simp [hl], by omega, ?_⟩
    intro j hj
    cases j with
    | zero =>
      simpa using hsval
    | succ i =>
      have hshift : p + 9 * (i + 1) = p + 9 + 9 * i := by ring
      rw [hshift]
      simpa using hidx i (by omega)

/-- C9: successful parsing of the GameStartRecord slot table yields exactly
as many slots as the count byte read after data_length, with slot j built
from the nine consecutive bytes at offset 9j in field order; and the slots
of every decoded replay are exactly the slot table parsed at the position
the header phase ends at. -/
theorem c9_slot_table :
    (∀ (d : List Nat) (p : Nat) (slots : List Slot) (q : Nat),
        parseSlotTable d p = some (slots, q) →
        ∃ count, d.get? (p + 2) = some count ∧ slots.length = count ∧
          q = p + 3 + 9 * count ∧
          ∀ j < count,
            slots.get? j = some (slotOfBytes ((d.drop (p + 3 + 9 * j)).take 9))) ∧
    (∀ (v : Nat) (d : List Nat) (r : Replay),
        from_data v d = some r →
        ∃ hdr q, parseHeaderPhase d = some hdr ∧
          parseSlotTable d hdr.pos = some (r.slots, q)) := by
  constructor
  · intro d p slots q h
    unfold parseSlotTable at h
    simp only [bind, Option.bind_eq_some] at h
    obtain ⟨⟨w, pw⟩, hw, ⟨count, pc⟩, hc, hrest⟩ := h
    obtain rfl := readWord_pos hw
    obtain ⟨gc, rfl⟩ := readByte_eq_some.mp hc
    obtain ⟨hl, hq, hidx⟩ := parseSlots_spec count (p + 2 + 1) slots q hrest
    refine ⟨count, gc, hl, by omega, ?_⟩
    intro j hj
    have : p + 3 + 9 * j = p + 2 + 1 + 9 * j := by omega
    rw [this]
    exact hidx j hj
  · intro v d r h
    unfold from_data at h
    simp only [bind, Option.bind_eq_some] at h
    obtain ⟨hdr, hhdr, ⟨slots, p1⟩, hst, ⟨seed, p2⟩, hseed, ⟨sm, p3⟩, hsm,
      ⟨sp, p4⟩, hsp, ⟨rid, p5⟩, hrid, final, hloop, hfin⟩ := h
    simp only [pure, Option.some.injEq] at hfin
    refine ⟨hdr, p1, hhdr, ?_⟩
    rw [← hfin]
    exact hst

/-- C9 witness: the slot-table theorem applied at a concrete two-record table
and at a concrete full decode. -/
theorem c9_slot_table_witness :
    (∃ count, (c9d.get? 2) = some count ∧ c9slots.length = count ∧
      (21 : Nat) = 0 + 3 + 9 * count ∧
      ∀ j < count,
        c9slots.get? j = some (slotOfBytes ((c9d.drop (0 + 3 + 9 * j)).take 9))) ∧
    (∃ hdr q, parseHeaderPhase minData = some hdr ∧
      parseSlotTable minData hdr.pos = some (rMin.slots, q)) :=
  ⟨c9_slot_table.1 c9d 0 c9slots 21 (by decide),
   c9_slot_table.2 1 minData rMin (by decide)⟩

theorem firstZero_le_length (l : List Nat) : firstZero l ≤ l.length := by
  induction l with
  | nil => simp [firstZero]
  | cons b t ih =>
    unfold firstZero
    split <;> simp <;> omega

theorem firstZero_lt_length {l : List Nat} (h : 0 ∈ l) : firstZero l < l.length := by
  induction l with
  | nil => simp at h
  | cons b t ih =>
    rw [List.length_cons]
    unfold firstZero
    split
    · omega
    · have hb : b ≠ 0 := by assumption
      have ht : 0 ∈ t := by
        rcases List.mem_cons.mp h with hb0 | ht
        · exact absurd hb0.symm hb
        · exact ht
      have := ih ht
      omega

theorem getD_lt_firstZero {l : List Nat} {i : Nat} (h : i < firstZero l) :
    l.getD i 0 ≠ 0 := by
  induction l generalizing i with
  | nil => simp [firstZero] at h
  | cons b t ih =>
    unfold firstZero at h
    split at h
    · omega
    · cases i with
      | zero => simpa using by assumption
      | succ j => exact ih (by omega)

theorem getD_at_firstZero {l : List Nat} (h : firstZero l < l.length) :
    l.getD (firstZero l) 0 = 0 := by
  induction l with
  | nil => simp at h
  | cons b t ih =>
    rw [List.length_cons] at h
    by_cases hb : b = 0
    · simp [firstZero, hb]
    · simp only [firstZero, if_neg hb, List.getD_cons_succ] at h ⊢
      exact ih (by omega)

theorem and_shift_eq_zero {mask k : Nat} :
    (mask &&& (1 <<< k) = 0) ↔ mask.testBit k = false := by
  rw [Nat.shiftLeft_eq, one_mul, Nat.and_two_pow]
  cases h : mask.testBit k <;> simp [h, Nat.two_pow_pos]

theorem gamesettingsSpec_eq_emit (enc : List Nat) :
    gamesettingsSpec enc =
      ((List.range' 0 (firstZero enc)).filter (fun j => !(j % 8 == 0))).map (gsEmit enc) := by
  unfold gamesettingsSpec gsEmit
  rw [List.range_eq_range']

/-- Generalized correctness of the gamesettings walk: starting mid-stream at
index i with the frame mask invariant, the walk emits exactly the spec-side
values of the indices from i up to the first zero. -/
theorem dgs_aux_eq (enc : List Nat) :
    ∀ (n i mask : Nat), firstZero enc - i = n → i ≤ firstZero enc →
      firstZero enc < enc.length →
      (i % 8 ≠ 0 → mask = enc.getD (8 * (i / 8)) 0) →
      decode_gamesettingsAux (enc.drop i) i mask =
        some (((List.range' i (firstZero enc - i)).filter (fun j => !(j % 8 == 0))).map
          (gsEmit enc)) := by
  intro n
  induction n with
  | zero =>
    intro i mask hn hi hlt _hmask
    have hien : i < enc.length := by omega
    rw [List.drop_eq_getElem_cons hien]
    have hz : enc[i] = 0 := by
      rw [← List.getD_eq_getElem enc 0 hien]
      have hifz : i = firstZero enc := by omega
      rw [hifz]
      exact getD_at_firstZero hlt
    unfold decode_gamesettingsAux
    rw [if_pos hz, hn]
    simp
  | succ m ih =>
    intro i mask hn hi hlt hmask
    have hilt : i < firstZero enc := by omega
    have hien : i < enc.length := by omega
    rw [List.drop_eq_getElem_cons hien]
    have hbz : enc[i] ≠ 0 := by
      rw [← List.getD_eq_getElem enc 0 hien]
      exact getD_lt_firstZero hilt
    have hgetD : enc.getD i 0 = enc[i] := List.getD_eq_getElem enc 0 hien
    have hrange : firstZero enc - i = (firstZero enc - (i + 1)) + 1 := by omega
    rw [hrange, List.range'_succ i (firstZero enc - (i + 1)) 1]
    unfold decode_gamesettingsAux
    rw [if_neg hbz]
    by_cases hmod : i % 8 = 0
    · rw [if_pos hmod]
      have hnext := ih (i + 1) enc[i] (by omega) (by omega) hlt (fun hm1 => by
        have : 8 * ((i + 1) / 8) = i := by omega
        rw [this, hgetD])
      rw [hnext]
      have : (i % 8 == 0) = true := by simpa using hmod
      simp only [List.filter_cons, this, Bool.not_true]
      rfl
    · rw [if_neg hmod]
      have hmaskv := hmask hmod
      have hnext := ih (i + 1) mask (by omega) (by omega) hlt (fun hm1 => by
        have : 8 * ((i + 1) / 8) = 8 * (i / 8) := by omega
        rw [this, hmaskv])
      have hfil : (i % 8 == 0) = false := by simpa using hmod
      simp only [List.filter_cons, hfil, Bool.not_false, List.map_cons]
      by_cases hbit : mask &&& (1 <<< (i % 8)) = 0
      · rw [if_pos hbit, hnext]
        have hemit : gsEmit enc i = enc[i] - 1 := by
          unfold gsEmit
          rw [hmaskv] at hbit
          have htb := and_shift_eq_zero.mp hbit
          rw [if_neg (by rw [htb]; simp), hgetD]
        simp [hemit]
      · rw [if_neg hbit, hnext]
        have hemit : gsEmit enc i = enc[i] := by
          unfold gsEmit
          rw [hmaskv] at hbit
          have htb : (enc.getD (8 * (i / 8)) 0).testBit (i % 8) = true := by
            cases h : (enc.getD (8 * (i / 8)) 0).testBit (i % 8) with
            | false => exact absurd (and_shift_eq_zero.mpr h) hbit
            | true => rfl
          rw [if_pos htb, hgetD]
        simp [hemit]

/-- C7: applied to any byte sequence containing a zero, the game-settings
decoder emits exactly the spec-side values for the bytes strictly before the
first zero (mask bytes at indices divisible by eight emit nothing; a byte at
frame position p emits itself when bit p of the frame mask is one and itself
minus one otherwise); decoding an empty input is an error. -/
theorem c7_gamesettings_decoder :
    (∀ enc : List Nat, 0 ∈ enc →
      decode_gamesettings enc = some (gamesettingsSpec enc)) ∧
    decode_gamesettings [] = none := by
  constructor
  · intro enc h0
    have hlt := firstZero_lt_length h0
    have := dgs_aux_eq enc (firstZero enc) 0 0 (by omega) (by omega) hlt
      (fun hm => absurd rfl hm)
    simpa [decode_gamesettings, gamesettingsSpec_eq_emit] using this
  · rfl

/-- C7 witness: the decoder theorem applied at the concrete input
255, 1, 1, 0 (mask 255, two payload bytes, terminator). -/
theorem c7_gamesettings_decoder_witness :
    (0 : Nat) ∈ [255, 1, 1, 0] ∧
    decode_gamesettings [255, 1, 1, 0] = some (gamesettingsSpec [255, 1, 1, 0]) :=
  ⟨by decide, c7_gamesettings_decoder.1 [255, 1, 1, 0] (by decide)⟩

theorem toI8_wsub32_two (raw : Nat) :
    toI8 (wsub32 raw 2) = signed8 (((raw : Int) - 2) % 256) := by
  unfold toI8 wsub32 signed8
  have h32 : (2 : Nat) ^ 32 = 4294967296 := by norm_num
  rw [h32]
  split <;> split <;> omega

/-- C6: a 0x20 ChatMessage record whose four reads succeed always parses (in
particular for recipient dwords 0 and 1), and records as recipient the
signed 8-bit reinterpretation of (recipient_raw minus 2) mod 256. -/
theorem c6_chat_recipient (d : List Nat) (st : RecState) (sender flag raw : Nat)
    (msg : List Nat) (p1 p2 p3 p4 : Nat)
    (h1 : readByte d st.pos = some (sender, p1))
    (h2 : readByte d (p1 + 2) = some (flag, p2))
    (h3 : readDword d p2 = some (raw, p3))
    (h4 : readCString d p3 = some (msg, p4)) :
    recordStep d 0x20 st = some (.next { st with
      pos := p4
      chat := st.chat ++ [⟨sender, some (signed8 (((raw : Int) - 2) % 256)), some flag,
                          msg, st.currentTimestamp⟩] }) := by
  unfold recordStep
  norm_num
  simp [h1, h2, h3, h4, bind, toI8_wsub32_two]

/-- C6 witness: the recipient theorem applied at the concrete record with
recipient_raw = 0, yielding recipient slot number minus two. -/
theorem c6_chat_recipient_witness :
    recordStep c6d 0x20 emptySt = some (.next { emptySt with
      pos := 9
      chat := [⟨5, some (signed8 (((0 : Int) - 2) % 256)), some 7, [], 0⟩] }) := by
  have h := c6_chat_recipient c6d emptySt 5 7 0 [] 1 4 8 9
    (by decide) (by decide) (by decide) (by decide)
  simpa using h

theorem chatCmdAppend_eq (actor ts : Nat) (chat : List ChatMessage) (command : List Nat) :
    chatCmdAppend actor ts chat command =
      if ∃ el ∈ chat, el.message = command ∧ absDiff el.timestamp ts < 500 then chat
      else chat ++ [⟨actor, none, none, command, ts⟩] := by
  have hiff : (chat.any (fun el => el.message == command && absDiff el.timestamp ts < 500)
        = true) ↔
      ∃ el ∈ chat, el.message = command ∧ absDiff el.timestamp ts < 500 := by
    simp [List.any_eq_true]
  unfold chatCmdAppend
  by_cases h : ∃ el ∈ chat, el.message = command ∧ absDiff el.timestamp ts < 500
  · rw [if_pos (hiff.mpr h), if_pos h]
  · rw [if_neg (fun hc => h (hiff.mp hc)), if_neg h]

/-- C5: decoding a 0x60 ChatCommand action reads its message and hands it to
the deduped chat append, which appends it to the chat list if and only if no
already-recorded ChatMessage has identical text and a timestamp within
500 ms of the current timestamp; when such a message exists, the chat list
is left unchanged. -/
theorem c5_chat_dedup (d : List Nat) (pbr blockLen : Nat)
    (pos : Nat) (buf command : List Nat) (p1 p2 : Nat)
    (h1 : readExact d pos 8 = some (buf, p1))
    (h2 : readCString d p1 = some (command, p2)) :
    handleActionBody d pbr blockLen 0x60 pos = some (p2, some command, none, false) ∧
    ∀ (actor ts : Nat) (chat : List ChatMessage),
      chatCmdAppend actor ts chat command =
        if ∃ el ∈ chat, el.message = command ∧ absDiff el.timestamp ts < 500 then chat
        else chat ++ [⟨actor, none, none, command, ts⟩] := by
  constructor
  · unfold handleActionBody
    norm_num
    simp [h1, h2, bind]
  · intro actor ts chat
    exact chatCmdAppend_eq actor ts chat command

/-- C5 witness: the dedup theorem applied at a concrete 0x60 body, with an
empty chat list (the message is appended) and with a recent identical
message already recorded (nothing is appended). -/
theorem c5_chat_dedup_witness :
    handleActionBody c5d 0 1 0x60 0 = some (11, some [104, 105], none, false) ∧
    chatCmdAppend 4 100 [] [104, 105] = [⟨4, none, none, [104, 105], 100⟩] ∧
    chatCmdAppend 4 100 [⟨9, none, none, [104, 105], 80⟩] [104, 105] =
      [⟨9, none, none, [104, 105], 80⟩] := by
  have h := c5_chat_dedup c5d 0 1 0 [0, 0, 0, 0, 0, 0, 0, 0] [104, 105] 8 11
    (by decide) (by decide)
  refine ⟨h.1, ?_, ?_⟩
  · rw [h.2 4 100 []]
    norm_num
  · rw [h.2 4 100 [⟨9, none, none, [104, 105], 80⟩]]
    rw [if_pos ⟨⟨9, none, none, [104, 105], 80⟩, by decide, by decide, by decide⟩]

theorem updEntry_not_mem {k : Nat} {f : ReplayPlayer → ReplayPlayer}
    {l : List (Nat × ReplayPlayer)} (h : k ∉ keysOf l) :
    updEntry k f l = l := by
  induction l with
  | nil => rfl
  | cons e t ih =>
    obtain ⟨k', v'⟩ := e
    unfold keysOf at h
    rw [List.map_cons, List.mem_cons] at h
    push_neg at h
    unfold updEntry
    rw [if_neg (fun hk => h.1 hk.symm), ih h.2]

/-- C10: a 0x17 LeaveGame record whose player id is not a key of the players
mapping leaves the mapping entirely unchanged while still updating
last_leaver_index (and hence the reported saving_player_id) to that id. -/
theorem c10_leave_unknown_player (d : List Nat) (st : RecState)
    (reasonVal pid result : Nat) (p1 p2 p3 : Nat)
    (h1 : readDword d st.pos = some (reasonVal, p1))
    (h2 : readByte d p1 = some (pid, p2))
    (h3 : readDword d p2 = some (result, p3))
    (hmem : pid ∉ keysOf st.players) :
    recordStep d 0x17 st =
      some (.next { st with pos := p3 + 4, lastLeaverIndex := pid }) := by
  unfold recordStep
  norm_num
  simp [h1, h2, h3, bind, updEntry_not_mem hmem]

/-- C10 witness: the theorem applied at the concrete 0x17 record naming the
unknown player 9 from a state knowing only player 1. -/
theorem c10_leave_unknown_player_witness :
    recordStep c10d 0x17 oneSt =
      some (.next { oneSt with pos := 13, lastLeaverIndex := 9 }) := by
  have h := c10_leave_unknown_player c10d oneSt 12 9 0 4 5 9
    (by decide) (by decide) (by decide) (by decide)
  simpa using h

theorem pairwise_snoc {α : Type} {R : α → α → Prop} {l : List α} {x : α}
    (hl : l.Pairwise R) (hx : ∀ a ∈ l, R a x) : (l ++ [x]).Pairwise R := by
  rw [List.pairwise_append]
  refine ⟨hl, List.pairwise_singleton R x, fun a ha b hb => ?_⟩
  rw [List.mem_singleton] at hb
  subst hb
  exact hx a ha

theorem forall_mem_snoc {α : Type} {P : α → Prop} {l : List α} {x : α}
    (hl : ∀ a ∈ l, P a) (hx : P x) : ∀ a ∈ l ++ [x], P a := by
  intro a ha
  rcases List.mem_append.mp ha with h1 | h2
  · exact hl a h1
  · rw [List.mem_singleton] at h2
    subst h2
    exact hx

theorem chatCmdAppend_sorted (actor : Nat) {ts : Nat} {chat : List ChatMessage} (cmd : List Nat)
    (hs : chat.Pairwise (fun a b => a.timestamp ≤ b.timestamp))
    (hb : ∀ c ∈ chat, c.timestamp ≤ ts) :
    (chatCmdAppend actor ts chat cmd).Pairwise (fun a b => a.timestamp ≤ b.timestamp) ∧
    ∀ c ∈ chatCmdAppend actor ts chat cmd, c.timestamp ≤ ts := by
  unfold chatCmdAppend
  split
  · exact ⟨hs, hb⟩
  · exact ⟨pairwise_snoc hs (fun a ha => hb a ha), forall_mem_snoc hb (le_refl ts)⟩

/-- The action walk preserves sortedness and the clock bound of both the chat
and the action lists (every pushed element carries the current clock). -/
theorem actionLoop_master (d : List Nat) (pbr blockLen actor ts : Nat) :
    ∀ (fuel curRead pos : Nat) (chat : List ChatMessage) (actions : List Action)
      (p' : Nat) (chat' : List ChatMessage) (actions' : List Action),
      actionLoop d pbr blockLen actor ts fuel curRead pos chat actions =
        some (p', chat', actions') →
      chat.Pairwise (fun a b => a.timestamp ≤ b.timestamp) →
      (∀ c ∈ chat, c.timestamp ≤ ts) →
      actions.Pairwise (fun a b => a.timestamp ≤ b.timestamp) →
      (∀ a ∈ actions, a.timestamp ≤ ts) →
      (chat'.Pairwise (fun a b => a.timestamp ≤ b.timestamp) ∧
       (∀ c ∈ chat', c.timestamp ≤ ts) ∧
       actions'.Pairwise (fun a b => a.timestamp ≤ b.timestamp) ∧
       (∀ a ∈ actions', a.timestamp ≤ ts)) := by
  intro fuel
  induction fuel with
  | zero =>
    intro curRead pos chat actions p' chat' actions' h
    simp [actionLoop] at h
  | succ m ih =>
    intro curRead pos chat actions p' chat' actions' h hcs hcb has hab
    simp only [actionLoop] at h
    split at h
    · split at h
      · simp at h
      · split at h
        · simp at h
        · rename_i p2 cmdOpt dat brk heq
          cases cmdOpt with
          | none =>
            split at h
            · simp only [Option.some.injEq, Prod.mk.injEq] at h
              obtain ⟨-, h2, h3⟩ := h
              subst h2
              subst h3
              exact ⟨hcs, hcb, has, hab⟩
            · exact ih _ _ _ _ p' chat' actions' h hcs hcb
                (pairwise_snoc has (fun a ha => hab a ha))
                (forall_mem_snoc hab (le_refl ts))
          | some cmd =>
            have hc2 := chatCmdAppend_sorted actor cmd hcs hcb
            split at h
            · simp only [Option.some.injEq, Prod.mk.injEq] at h
              obtain ⟨-, h2, h3⟩ := h
              subst h2
              subst h3
              exact ⟨hc2.1, hc2.2, has, hab⟩
            · exact ih _ _ _ _ p' chat' actions' h hc2.1 hc2.2
                (pairwise_snoc has (fun a ha => hab a ha))
                (forall_mem_snoc hab (le_refl ts))
    · simp only [Option.some.injEq, Prod.mk.injEq] at h
      obtain ⟨-, h2, h3⟩ := h
      subst h2
      subst h3
      exact ⟨hcs, hcb, has, hab⟩

theorem updEntry_keys (k : Nat) (f : ReplayPlayer → ReplayPlayer)
    (l : List (Nat × ReplayPlayer)) : keysOf (updEntry k f l) = keysOf l := by
  induction l with
  | nil => rfl
  | cons e t ih =>
    obtain ⟨k', v'⟩ := e
    unfold updEntry
    split
    · rfl
    · unfold keysOf at ih ⊢
      simp only [List.map_cons]
      rw [ih]

/-- The per-actor block loop preserves the player key set unconditionally,
and sortedness along with the clock bound when they hold on entry. -/
theorem blockLoop_master {d : List Nat} {ts : Nat} :
    ∀ (fuel lf pos : Nat) (players : List (Nat × ReplayPlayer))
      (chat : List ChatMessage) (actions : List Action) (p' : Nat)
      (players' : List (Nat × ReplayPlayer)) (chat' : List ChatMessage)
      (actions' : List Action),
      blockLoop d ts fuel lf pos players chat actions =
        some (p', players', chat', actions') →
      keysOf players' = keysOf players ∧
      ((chat.Pairwise (fun a b => a.timestamp ≤ b.timestamp) ∧
        (∀ c ∈ chat, c.timestamp ≤ ts) ∧
        actions.Pairwise (fun a b => a.timestamp ≤ b.timestamp) ∧
        (∀ a ∈ actions, a.timestamp ≤ ts)) →
       (chat'.Pairwise (fun a b => a.timestamp ≤ b.timestamp) ∧
        (∀ c ∈ chat', c.timestamp ≤ ts) ∧
        actions'.Pairwise (fun a b => a.timestamp ≤ b.timestamp) ∧
        (∀ a ∈ actions', a.timestamp ≤ ts))) := by
  intro fuel
  induction fuel with
  | zero =>
    intro lf pos players chat actions p' players' chat' actions' h
    simp [blockLoop] at h
  | succ m ih =>
    intro lf pos players chat actions p' players' chat' actions' h
    simp only [blockLoop] at h
    split at h
    · simp at h
    · rename_i actor p1 hrb
      split at h
      · simp at h
      · rename_i blockLen p2 hrw
        split at h
        · simp at h
        · rename_i p3 chat3 actions3 hal
          split at h
          · simp only [Option.some.injEq, Prod.mk.injEq] at h
            obtain ⟨-, hpl, hch, hac⟩ := h
            subst hpl
            subst hch
            subst hac
            refine ⟨updEntry_keys actor _ players, fun hin => ?_⟩
            exact actionLoop_master d p2 blockLen actor ts (d.length + 1) 0 p2
              chat actions _ _ _ hal hin.1 hin.2.1 hin.2.2.1 hin.2.2.2
          · have hrec := ih _ p3 _ chat3 actions3 p' players' chat' actions' h
            refine ⟨?_, fun hin => ?_⟩
            · rw [hrec.1]
              exact updEntry_keys actor _ players
            · have hmono := actionLoop_master d p2 blockLen actor ts (d.length + 1) 0 p2
                chat actions p3 chat3 actions3 hal hin.1 hin.2.1 hin.2.2.1 hin.2.2.2
              exact hrec.2 ⟨hmono.1, hmono.2.1, hmono.2.2.1, hmono.2.2.2⟩

set_option maxRecDepth 2000 in
/-- Master inversion of one record dispatch: any resulting state keeps the
player key set; under byte-valid input with at least 2^16 of headroom below
2^64 the wrapping clock does not wrap, so it does not decrease, grows by at
most 2^16, and the sorted-timestamps invariant is preserved; and
last_leaver_index is updated exactly on 0x17 records (to the player id byte
read at offset 4 of the record body) and never otherwise. -/
theorem recordStep_master {d : List Nat} {rid : Nat} {st : RecState} {out : StepOut}
    (h : recordStep d rid st = some out) :
    ∀ st', (out = .next st' ∨ out = .stop st') →
      keysOf st'.players = keysOf st.players ∧
      ((∀ b ∈ d, b < 256) → st.currentTimestamp + 2 ^ 16 ≤ 2 ^ 64 →
        st.currentTimestamp ≤ st'.currentTimestamp ∧
        st'.currentTimestamp ≤ st.currentTimestamp + 2 ^ 16 ∧
        (Inv st → Inv st')) ∧
      (rid = 0x17 → ∃ pid p2, readByte d (st.pos + 4) = some (pid, p2) ∧
        st'.lastLeaverIndex = pid) ∧
      (rid ≠ 0x17 → st'.lastLeaverIndex = st.lastLeaverIndex) := by
  intro st' hst'
  unfold recordStep at h
  by_cases h17 : rid = 0x17
  · rw [if_pos h17] at h
    simp only [bind, Option.bind_eq_some] at h
    obtain ⟨⟨rv, p1⟩, hr, ⟨pid, p2⟩, hb, ⟨res, p3⟩, hres, hfin⟩ := h
    simp only [pure, Option.some.injEq] at hfin
    subst hfin
    rcases hst' with he | he <;> cases he
    rw [readDword_pos hr] at hb
    exact ⟨updEntry_keys pid _ st.players,
      fun _ _ => ⟨le_refl _, Nat.le_add_right _ _, fun hI => hI⟩,
      fun _ => ⟨pid, p2, hb, rfl⟩, fun hne => absurd h17 hne⟩
  · rw [if_neg h17] at h
    have hne : rid ≠ 0x17 := h17
    repeat' (split at h)
    any_goals
      (simp only [pure, Option.some.injEq] at h
       subst h
       rcases hst' with he | he <;> cases he
       exact ⟨rfl, fun _ _ => ⟨le_refl _, Nat.le_add_right _ _, fun hI => hI⟩,
         fun hx => absurd hx hne, fun _ => rfl⟩)
    -- remaining goals: the 0x1E/0x1F TimeSlot record, then the 0x20 chat record
    · simp only [bind, Option.bind_eq_some] at h
      obtain ⟨⟨lf0, q1⟩, hh1, ⟨inc, q2⟩, hh2, hrest⟩ := h
      split at hrest
      · simp only [bind, Option.bind_eq_some] at hrest
        obtain ⟨⟨q3, pl3, ch3, ac3⟩, hbl, hfin⟩ := hrest
        simp only [pure, Option.some.injEq] at hfin
        subst hfin
        rcases hst' with he | he <;> cases he
        have hm := blockLoop_master _ _ _ _ _ _ _ _ _ _ hbl
        refine ⟨hm.1, fun hv hbt => ?_, fun hx => absurd hx hne, fun _ => rfl⟩
        have hinc := readWord_lt hv hh2
        have hle : st.currentTimestamp ≤ (st.currentTimestamp + inc) % 2 ^ 64 := by
          omega
        refine ⟨hle, ?_, fun hI => ?_⟩
        · show (st.currentTimestamp + inc) % 2 ^ 64 ≤ st.currentTimestamp + 2 ^ 16
          omega
        · obtain ⟨hc, ha, hcb, hab⟩ := hI
          have hm2 := hm.2 ⟨hc, fun c hcm => le_trans (hcb c hcm) hle,
            ha, fun a ham => le_trans (hab a ham) hle⟩
          exact ⟨hm2.1, hm2.2.2.1, hm2.2.1, hm2.2.2.2⟩
      · simp only [pure, Option.some.injEq] at hrest
        subst hrest
        rcases hst' with he | he <;> cases he
        refine ⟨rfl, fun hv hbt => ?_, fun hx => absurd hx hne, fun _ => rfl⟩
        have hinc := readWord_lt hv hh2
        have hle : st.currentTimestamp ≤ (st.currentTimestamp + inc) % 2 ^ 64 := by
          omega
        refine ⟨hle, ?_, fun hI => ?_⟩
        · show (st.currentTimestamp + inc) % 2 ^ 64 ≤ st.currentTimestamp + 2 ^ 16
          omega
        · obtain ⟨hc, ha, hcb, hab⟩ := hI
          exact ⟨hc, ha, fun c hcm => le_trans (hcb c hcm) hle,
            fun a ham => le_trans (hab a ham) hle⟩
    · simp only [bind, Option.bind_eq_some] at h
      obtain ⟨⟨sender, q1⟩, hh1, ⟨flag, q2⟩, hh2, ⟨raw, q3⟩, hh3, ⟨msg, q4⟩, hh4,
        hfin⟩ := h
      simp only [pure, Option.some.injEq] at hfin
      subst hfin
      rcases hst' with he | he <;> cases he
      refine ⟨rfl, fun _ _ => ⟨le_refl _, Nat.le_add_right _ _, fun hI => ?_⟩,
        fun hx => absurd hx hne, fun _ => rfl⟩
      obtain ⟨hc, ha, hcb, hab⟩ := hI
      exact ⟨pairwise_snoc hc (fun a ha2 => hcb a ha2), ha,
        forall_mem_snoc hcb (le_refl _), hab⟩

/-- Master inversion of the record-stream loop: key preservation
unconditionally; and, on byte-valid input whose clock has 2^16 of headroom
per fuel unit, clock monotonicity and invariant preservation (no record can
wrap the u64 clock within that budget). -/
theorem recordLoop_master {d : List Nat} :
    ∀ (fuel rid : Nat) (st st' : RecState),
      recordLoop d fuel rid st = some st' →
      keysOf st'.players = keysOf st.players ∧
      ((∀ b ∈ d, b < 256) → st.currentTimestamp + 2 ^ 16 * fuel ≤ 2 ^ 64 →
        st.currentTimestamp ≤ st'.currentTimestamp ∧ (Inv st → Inv st')) := by
  intro fuel
  induction fuel with
  | zero =>
    intro rid st st' h
    simp [recordLoop] at h
  | succ m ih =>
    intro rid st st' h
    simp only [recordLoop] at h
    split at h
    · simp at h
    · rename_i st1 hrs
      simp only [Option.some.injEq] at h
      subst h
      have hm := recordStep_master hrs st1 (Or.inr rfl)
      refine ⟨hm.1, fun hv hbt => ?_⟩
      have hstep := hm.2.1 hv (by omega)
      exact ⟨hstep.1, hstep.2.2⟩
    · rename_i st1 hrs
      split at h
      · simp at h
      · rename_i rid2 p2 hrb
        have hm := recordStep_master hrs st1 (Or.inl rfl)
        have hrec := ih rid2 { st1 with pos := p2 } st' h
        refine ⟨by rw [hrec.1]; exact hm.1, fun hv hbt => ?_⟩
        have hstep := hm.2.1 hv (by omega)
        have hb2 : ({ st1 with pos := p2 } : RecState).currentTimestamp +
            2 ^ 16 * m ≤ 2 ^ 64 := by
          show st1.currentTimestamp + 2 ^ 16 * m ≤ 2 ^ 64
          have := hstep.2.1
          omega
        have hrec2 := hrec.2 hv hb2
        exact ⟨le_trans hstep.1 hrec2.1, fun hI => hrec2.2 (hstep.2.2 hI)⟩

/-- C8 witness: the coercion theorem applied at the concrete bytes 7 (status),
3 (race), 9 (AI strength), 99 (color), and at a concrete 9-byte record. -/
theorem c8_enum_coercion_witness :
    (SlotStatus.from_u8 7).getD .UNKNOWN = SlotStatus.UNKNOWN ∧
    (SlotRace.from_u8 3).getD .UNKNOWN = SlotRace.UNKNOWN ∧
    (ComputerAIStrength.from_u8 9).getD .UNKNOWN = ComputerAIStrength.UNKNOWN ∧
    (SlotColor.from_u8 ((99 + 1) % 256)).getD .UNKNOWN = SlotColor.UNKNOWN ∧
    (parseSlot [1, 100, 7, 0, 3, 99, 3, 9, 100] 0).isSome :=
  ⟨c8_enum_coercion.1 7 (by decide),
   c8_enum_coercion.2.1 3 (by decide),
   c8_enum_coercion.2.2.1 9 (by decide),
   c8_enum_coercion.2.2.2.1 99 (by decide),
   c8_enum_coercion.2.2.2.2.2.2 [1, 100, 7, 0, 3, 99, 3, 9, 100] 0 (by decide)⟩

/-- C1 counterexample: decoding c1data yields exactly one player entry with
leave_reason CONNECTION_CLOSED_BY_LOCAL_GAME, namely player 2 (whose battle
tag B is not FLO), yet the reported saving_player_id is 1, the id of the
last 0x17 record. -/
theorem c1_counterexample :
    (from_data 1 c1data).map (fun r =>
      ((r.players.filter (fun e =>
          decide (e.2.leave_reason = LeaveReason.CONNECTION_CLOSED_BY_LOCAL_GAME))).map
          (fun e => (e.1, e.2.battle_tag)),
        r.metadata.saving_player_id)) = some ([(2, [66])], 1) := by
  decide

/-- C1 amended: the reported metadata.saving_player_id is last_leaver_index:
report assembly copies it verbatim, every 0x17 record dispatch sets it to
the player id byte of that record, and no other record dispatch changes it;
the leave-reason candidate computation is not used. -/
theorem c1_saving_player_amended :
    (∀ (v : Nat) (hdr : HeaderOut) (slots : List Slot) (final : RecState),
      (assemble v hdr slots final).metadata.saving_player_id = final.lastLeaverIndex) ∧
    (∀ (d : List Nat) (rid : Nat) (st st' : RecState),
      recordStep d rid st = some (.next st') →
      (rid = 0x17 → ∃ pid p2, readByte d (st.pos + 4) = some (pid, p2) ∧
        st'.lastLeaverIndex = pid) ∧
      (rid ≠ 0x17 → st'.lastLeaverIndex = st.lastLeaverIndex)) := by
  constructor
  · intro v hdr slots final
    rfl
  · intro d rid st st' h
    have hm := recordStep_master h st' (Or.inl rfl)
    exact ⟨hm.2.2.1, hm.2.2.2⟩

/-- C1 witness: the amended theorem applied at a concrete assembly (the
saving player id equals the final lastLeaverIndex 5) and at the concrete
0x17 record of c10d processed from oneSt (lastLeaverIndex becomes 9). -/
theorem c1_saving_player_amended_witness :
    (assemble 1 hdr0 [] ⟨0, [], [], 0, [], 5⟩).metadata.saving_player_id = 5 ∧
    (((0x17 : Nat) = 0x17 → ∃ pid p2, readByte c10d (oneSt.pos + 4) = some (pid, p2) ∧
        ({ oneSt with pos := 13, lastLeaverIndex := 9 } : RecState).lastLeaverIndex = pid) ∧
     ((0x17 : Nat) ≠ 0x17 →
        ({ oneSt with pos := 13, lastLeaverIndex := 9 } : RecState).lastLeaverIndex =
          oneSt.lastLeaverIndex)) :=
  ⟨c1_saving_player_amended.1 1 hdr0 [] ⟨0, [], [], 0, [], 5⟩,
   c1_saving_player_amended.2 c10d 0x17 oneSt { oneSt with pos := 13, lastLeaverIndex := 9 }
     (by decide)⟩

/-- C3 counterexample: decoding c3data yields an action whose player_id 99 is
not a key of the players mapping (whose keys are 1 and 2). -/
theorem c3_counterexample :
    (from_data 1 c3data).map (fun r =>
      (r.actions.map (fun a => a.player_id), keysOf r.players,
       decide (∀ a ∈ r.actions, a.player_id ∈ keysOf r.players))) =
      some ([99], [1, 2], false) := by
  decide

/-- C3 amended: player ids occurring in actions or chat need not be keys of
the players mapping; the record loop never inserts into the mapping (it only
modifies existing entries), so the keys of the players mapping of a decoded
replay are exactly those seeded by the PlayerRecord and PlayerList of the
header phase. -/
theorem c3_player_keys :
    (∀ (d : List Nat) (fuel rid : Nat) (st st' : RecState),
      recordLoop d fuel rid st = some st' →
      keysOf st'.players = keysOf st.players) ∧
    (∀ (v : Nat) (d : List Nat) (r : Replay), from_data v d = some r →
      ∃ hdr : HeaderOut, parseHeaderPhase d = some hdr ∧
        keysOf r.players = keysOf hdr.players) := by
  constructor
  · intro d fuel rid st st' h
    exact (recordLoop_master fuel rid st st' h).1
  · intro v d r h
    unfold from_data at h
    simp only [bind, Option.bind_eq_some] at h
    obtain ⟨hdr, hhdr, ⟨slots, p1⟩, hst, ⟨seed, p2⟩, hs2, ⟨sm, p3⟩, hs3, ⟨sp, p4⟩, hs4,
      ⟨rid, p5⟩, hs5, final, hloop, hfin⟩ := h
    simp only [pure, Option.some.injEq] at hfin
    subst hfin
    exact ⟨hdr, hhdr, (recordLoop_master _ _ _ _ hloop).1⟩

/-- C3 witness: the amended theorem applied at a concrete one-record loop and
at the concrete decode of minData. -/
theorem c3_player_keys_witness :
    keysOf emptySt.players = keysOf emptySt.players ∧
    (∃ hdr : HeaderOut, parseHeaderPhase minData = some hdr ∧
      keysOf rMin.players = keysOf hdr.players) :=
  ⟨c3_player_keys.1 [0] 1 0 emptySt emptySt (by decide),
   c3_player_keys.2 1 minData rMin (by decide)⟩

/-- C4: on a stream of genuine bytes shorter than 2^48 (so that the wrapping
u64 clock, which gains less than 2^16 per TimeSlot record and at most one
record per stream byte, cannot wrap), every decoded replay has the
timestamps of its actions list monotonically non-decreasing in list order,
and likewise for its chat list; and the record loop never decreases the
current timestamp while clock headroom of 2^16 per fuel unit remains. -/
theorem c4_timestamps_monotone :
    (∀ (v : Nat) (d : List Nat) (r : Replay),
      (∀ b ∈ d, b < 256) → d.length < 2 ^ 48 →
      from_data v d = some r →
      r.actions.Pairwise (fun a b => a.timestamp ≤ b.timestamp) ∧
      r.chat.Pairwise (fun a b => a.timestamp ≤ b.timestamp)) ∧
    (∀ (d : List Nat) (fuel rid : Nat) (st st' : RecState),
      (∀ b ∈ d, b < 256) → st.currentTimestamp + 2 ^ 16 * fuel ≤ 2 ^ 64 →
      recordLoop d fuel rid st = some st' →
      st.currentTimestamp ≤ st'.currentTimestamp) := by
  constructor
  · intro v d r hv hlen h
    unfold from_data at h
    simp only [bind, Option.bind_eq_some] at h
    obtain ⟨hdr, hhdr, ⟨slots, p1⟩, hst, ⟨seed, p2⟩, hs2, ⟨sm, p3⟩, hs3, ⟨sp, p4⟩, hs4,
      ⟨rid, p5⟩, hs5, final, hloop, hfin⟩ := h
    simp only [pure, Option.some.injEq] at hfin
    subst hfin
    have hI : Inv ⟨p5, hdr.players, [], 0, [], 0⟩ :=
      ⟨List.Pairwise.nil, List.Pairwise.nil, by simp, by simp⟩
    have hbt : (⟨p5, hdr.players, [], 0, [], 0⟩ : RecState).currentTimestamp +
        2 ^ 16 * (d.length + 1) ≤ 2 ^ 64 := by
      show (0 : Nat) + 2 ^ 16 * (d.length + 1) ≤ 2 ^ 64
      omega
    have hfinal := (((recordLoop_master _ _ _ _ hloop).2) hv hbt).2 hI
    exact ⟨hfinal.2.1, hfinal.1⟩
  · intro d fuel rid st st' hv hbt h
    exact (((recordLoop_master fuel rid st st' h).2) hv hbt).1

/-- C4 witness: the monotonicity theorem applied at the concrete decode of
c3data (a byte-valid stream well below the 2^48 bound) and at a concrete
one-record loop. -/
theorem c4_timestamps_monotone_witness :
    (c3replay.actions.Pairwise (fun a b => a.timestamp ≤ b.timestamp) ∧
     c3replay.chat.Pairwise (fun a b => a.timestamp ≤ b.timestamp)) ∧
    emptySt.currentTimestamp ≤ emptySt.currentTimestamp :=
  ⟨c4_timestamps_monotone.1 1 c3data c3replay (by decide) (by decide) (by decide),
   c4_timestamps_monotone.2 [0] 1 0 emptySt emptySt (by decide) (by decide) (by decide)⟩

end W3G
